import Mathlib

/-!
Verification of the session / command-framing core of the remote command
executor (src/main.go).  Byte streams are modelled as `List Nat`, one entry
per byte; each call to `Stdout.Read` in the read loop of `Session.RunCommand`
is one `ReadEv`; machine state touched by the registry operations
(`SessionManager.CreateSession` / `GetSession` / `EndSession`) is a `World`.
-/

namespace RemoteExec

/-- Size ceiling on the accumulated output buffer (Go: `1024*1024` at
src/main.go line 178). -/
def MB : Nat := 1024 * 1024

/-- One result of a call to `Stdout.Read` inside the read loop: either a read
error (`err != nil && err != io.EOF`, Go line 147), or `n` bytes of data
(`data []` models a read returning `n = 0`, e.g. EOF). -/
inductive ReadEv where
  | err
  | data (bytes : List Nat)
deriving DecidableEq

/-- Outcome of the read loop of `Session.RunCommand`.  `pending acc` means the
loop consumed the whole event stream without returning and is still blocked in
`Read` holding accumulated bytes `acc`. -/
inductive LoopOut where
  | found (res : List Nat)
  | truncated (res : List Nat)
  | readError
  | pending (acc : List Nat)
deriving DecidableEq

/-- Go lines 163-168: `result = result[:len(result)-1]` when the byte sequence
is nonempty and its last byte equals `c`. -/
def stripIfLast (c : Nat) (l : List Nat) : List Nat :=
  if 0 < l.length ∧ l.getLast? = some c then l.dropLast else l

/-- Trailing-terminator cleanup applied to the bytes preceding the marker
(Go lines 161-168): strip one trailing LF (byte 10), then one trailing CR
(byte 13). -/
def cleanTrailing (l : List Nat) : List Nat := stripIfLast 13 (stripIfLast 10 l)

/-- First position `i` in the candidate list such that
`output[i : i+len(marker)] == marker` (Go line 159). -/
def findFirst (marker output : List Nat) : List Nat → Option Nat
  | [] => none
  | i :: rest =>
      if (output.drop i).take marker.length == marker then some i
      else findFirst marker output rest

/-- The Go inner scan (line 158):
`for i := len(output) - n; i <= len(output)-len(markerBytes); i++`,
i.e. the candidate positions are `start, start+1, ..., len(output)-len(marker)`. -/
def findFrom (marker output : List Nat) (start : Nat) : Option Nat :=
  findFirst marker output (List.range' start (output.length + 1 - marker.length - start))

/-- The per-iteration marker check (Go lines 152-158): it only runs when
`n > 0` and `len(output) >= len(markerBytes)`, and it scans only from position
`len(output) - n` on (the newly appended region, with no overlap into the
previously scanned bytes). -/
def scanStep (marker out : List Nat) (n : Nat) : Option Nat :=
  if 0 < n then
    if marker.length ≤ out.length then findFrom marker out (out.length - n)
    else none
  else none

/-- The read loop of `Session.RunCommand` (Go lines 145-187), consuming one
`ReadEv` per call to `Stdout.Read`.  A read error returns before anything is
appended; on data, the bytes are appended, the new region is scanned for the
marker, and finally the 1 MiB ceiling is checked (`break` followed by
`return string(output), nil`). -/
def runLoop (marker : List Nat) : List Nat → List ReadEv → LoopOut
  | acc, [] => LoopOut.pending acc
  | _, ReadEv.err :: _ => LoopOut.readError
  | acc, ReadEv.data bytes :: rest =>
      let out := acc ++ bytes
      match scanStep marker out bytes.length with
      | some i => LoopOut.found (cleanTrailing (out.take i))
      | none => if MB < out.length then LoopOut.truncated out else runLoop marker out rest

/-- The part of the Go `Session` state that `RunCommand` consults: the
`Running` flag. -/
structure SessionSt where
  running : Bool
deriving DecidableEq

/-- The failure kinds of `Session.RunCommand` (Go lines 122-150). -/
inductive CmdErr where
  | notRunning
  | writeError
  | readError
deriving DecidableEq

/-- Result of a completed `RunCommand` call: the output string or an error. -/
inductive CmdResult where
  | ok (output : List Nat)
  | err (e : CmdErr)
deriving DecidableEq

/-- `Session.RunCommand` (Go lines 118-188).  `writeOk` models whether the
`Stdin.Write` of the wrapped command succeeds; `marker` is the uuid generated
for this call (line 130); `evs` is the sequence of reads the output pipe
delivers.  `none` models a call that has not returned (still blocked in the
read loop).  The returned `SessionSt` is the session state when the call
ends: the Go function never assigns `s.Running`, so it is the input state on
every path. -/
def runCommand (st : SessionSt) (writeOk : Bool) (marker : List Nat)
    (evs : List ReadEv) : Option (SessionSt × CmdResult) :=
  if st.running = false then some (st, CmdResult.err CmdErr.notRunning)
  else if writeOk = false then some (st, CmdResult.err CmdErr.writeError)
  else
    match runLoop marker [] evs with
    | LoopOut.found r => some (st, CmdResult.ok r)
    | LoopOut.truncated r => some (st, CmdResult.ok r)
    | LoopOut.readError => some (st, CmdResult.err CmdErr.readError)
    | LoopOut.pending _ => none

/-- Registry-level state.  Session objects are shared mutable values: the map
(Go `SessionManager.sessions`) stores references to them, `GetSession` hands
the reference out, and `EndSession` mutates the referenced object.  We model
the objects as a heap of `Running` flags addressed by `Nat` references. -/
structure World where
  sessions : String → Option Nat
  running : Nat → Bool
  alloc : Nat

/-- Registry at process start (Go `NewSessionManager`): empty map, no session
objects allocated. -/
def World.empty : World :=
  { sessions := fun _ => none, running := fun _ => false, alloc := 0 }

/-- `SessionManager.CreateSession` (Go lines 39-82) with `newId` the uuid
minted for the call: allocate a fresh session object with `Running = true` and
insert it into the map under `newId`. -/
def createSession (w : World) (newId : String) : World :=
  { sessions := fun k => if k = newId then some w.alloc else w.sessions k,
    running := fun r => if r = w.alloc then true else w.running r,
    alloc := w.alloc + 1 }

/-- `SessionManager.GetSession` (Go lines 85-90): a pure map lookup. -/
def getSession (w : World) (id : String) : Option Nat := w.sessions id

/-- Result of `SessionManager.EndSession`. -/
inductive EndResult where
  | ok
  | notFound
deriving DecidableEq

/-- `SessionManager.EndSession` (Go lines 93-115): if the id is absent, fail
with the not-found error and leave everything unchanged; otherwise set the
session object's `Running` flag to false (after closing stdin and killing the
process, side effects outside this model) and delete the map entry. -/
def endSession (w : World) (id : String) : World × EndResult :=
  match w.sessions id with
  | none => (w, EndResult.notFound)
  | some r =>
      ({ sessions := fun k => if k = id then none else w.sessions k,
         running := fun q => if q = r then false else w.running q,
         alloc := w.alloc }, EndResult.ok)

/-- Worlds reachable through the public interface (create / lookup / destroy /
run).  Lookups and `RunCommand` calls do not change any registry or flag
state, so only create and destroy appear.  The freshness hypothesis on create
models uuid non-collision. -/
inductive Reached : World → Prop where
  | start : Reached World.empty
  | create {w : World} (id : String) (h : Reached w)
      (hfresh : w.sessions id = none) : Reached (createSession w id)
  | destroy {w : World} (id : String) (h : Reached w) :
      Reached (endSession w id).1

/-- Specification-side statement of the terminator stripping (§4.1 step 6 of
the spec): exactly one trailing line terminator — CRLF, LF, or CR — is
stripped if present, and otherwise the bytes are unchanged. -/
def specStripTerminator (l : List Nat) : List Nat :=
  if [13, 10] <:+ l then l.take (l.length - 2)
  else if [10] <:+ l then l.take (l.length - 1)
  else if [13] <:+ l then l.take (l.length - 1)
  else l

/-! ### Helper lemmas about the read loop -/

/-- Processing a concatenated event stream: the second part only matters if
the first leaves the loop pending. -/
theorem runLoop_append (m : List Nat) (acc : List Nat) (evs₁ evs₂ : List ReadEv) :
    runLoop m acc (evs₁ ++ evs₂) =
      match runLoop m acc evs₁ with
      | LoopOut.pending a => runLoop m a evs₂
      | r => r := by
  induction evs₁ generalizing acc with
  | nil => simp [runLoop]
  | cons ev rest ih =>
    cases ev with
    | err => simp [runLoop]
    | data bytes =>
      simp only [List.cons_append, runLoop]
      cases hscan : scanStep m (acc ++ bytes) bytes.length with
      | some i => simp
      | none =>
        by_cases hlen : MB < acc.length + bytes.length
        · simp [hlen, List.length_append]
        · simp [hlen, List.length_append, ih]

/-- The loop can only stay pending while the accumulated buffer is within the
ceiling: every iteration that does not return re-checks the 1 MiB bound. -/
theorem runLoop_pending_le (m : List Nat) (acc a : List Nat) (evs : List ReadEv)
    (hacc : acc.length ≤ MB) (h : runLoop m acc evs = LoopOut.pending a) :
    a.length ≤ MB := by
  induction evs generalizing acc with
  | nil =>
    simp only [runLoop] at h
    cases h
    exact hacc
  | cons ev rest ih =>
    cases ev with
    | err => simp [runLoop] at h
    | data bytes =>
      simp only [runLoop] at h
      cases hscan : scanStep m (acc ++ bytes) bytes.length with
      | some i => simp [hscan] at h
      | none =>
        rw [hscan] at h
        by_cases hlen : MB < acc.length + bytes.length
        · simp [hlen, List.length_append] at h
        · simp only [List.length_append, if_neg hlen] at h
          exact ih _ (by simpa [List.length_append] using Nat.le_of_not_lt hlen) h

/-- A read that returns zero bytes (end-of-stream) neither returns from the
loop nor changes its state: any number of such reads leaves the loop pending. -/
theorem runLoop_eof_pending (m : List Nat) (a : List Nat) (k : Nat)
    (ha : a.length ≤ MB) :
    runLoop m a (List.replicate k (ReadEv.data [])) = LoopOut.pending a := by
  induction k with
  | zero => simp [runLoop]
  | succ n ih =>
    simp only [List.replicate_succ, runLoop, List.append_nil]
    have hscan : scanStep m a ([] : List Nat).length = none := by simp [scanStep]
    rw [hscan]
    simp only [if_neg (Nat.not_lt.mpr ha)]
    exact ih

/-- `findFirst` returns `none` when no candidate position matches. -/
theorem findFirst_eq_none (marker output : List Nat) (is : List Nat)
    (h : ∀ i ∈ is, ¬((output.drop i).take marker.length = marker)) :
    findFirst marker output is = none := by
  induction is with
  | nil => rfl
  | cons i rest ih =>
    simp only [findFirst]
    rw [if_neg]
    · exact ih fun j hj => h j (List.mem_cons_of_mem _ hj)
    · simpa using h i (List.mem_cons_self i rest)

/-- `scanStep` never matches a single-byte marker `[d]` against a buffer that
is a run of a different byte `c`. -/
theorem scanStep_replicate_ne (c d : Nat) (hcd : c ≠ d) (N n : Nat) :
    scanStep [d] (List.replicate N c) n = none := by
  unfold scanStep findFrom
  by_cases hn : 0 < n
  · rw [if_pos hn]
    by_cases hN : ([d] : List Nat).length ≤ (List.replicate N c).length
    · rw [if_pos hN]
      apply findFirst_eq_none
      intro i _ hmatch
      rw [List.drop_replicate, List.take_replicate] at hmatch
      rcases hmin : min ([d] : List Nat).length (N - i) with _ | k
      · rw [hmin] at hmatch
        simp at hmatch
      · rw [hmin] at hmatch
        have hk : k = 0 := by
          have : min ([d] : List Nat).length (N - i) ≤ 1 := by
            simp [Nat.min_le_left]
          omega
        subst hk
        simp at hmatch
        exact hcd hmatch
    · rw [if_neg hN]
  · rw [if_neg hn]

/-! ### Claim theorems: the read loop -/

/-- C1.  The claim says the scan of the newly appended region together with a
marker-length−1 overlap finds every occurrence of the marker, including one
split across two consecutive reads, and that the returned output is the bytes
strictly before the first occurrence.  The code scans only from
`len(output)-n` with no overlap (src/main.go line 158), so an occurrence split
across two reads is never matched: with marker bytes `[1,2]`, delivering
`[9,1]` then `[2]` accumulates `[9,1,2]`, which contains the marker as a
contiguous substring, yet the call never returns (`none`), while the very same
bytes delivered in a single read return `[9]` as the claim describes. -/
theorem runCommand_misses_marker_split_across_reads :
    ([1, 2] <:+: [9, 1, 2]) ∧
    runCommand ⟨true⟩ true [1, 2] [ReadEv.data [9, 1], ReadEv.data [2]] = none ∧
    runCommand ⟨true⟩ true [1, 2] [ReadEv.data [9, 1, 2]] =
      some (⟨true⟩, CmdResult.ok [9]) :=
  ⟨⟨[9], [], rfl⟩, rfl, rfl⟩

/-- C2.  If, on a running session with a successful write, the read loop is
still pending and a further read pushes the accumulated buffer over the 1 MiB
ceiling without the scan finding the marker, then the call stops reading (the
remaining events `rest` are never consumed) and returns everything accumulated
so far as a successful, non-error result. -/
theorem runCommand_size_ceiling_returns_accumulated_ok
    (st : SessionSt) (m acc b : List Nat) (evs₁ rest : List ReadEv)
    (hr : st.running = true)
    (h1 : runLoop m [] evs₁ = LoopOut.pending acc)
    (h2 : scanStep m (acc ++ b) b.length = none)
    (h3 : MB < (acc ++ b).length) :
    runCommand st true m (evs₁ ++ ReadEv.data b :: rest) =
      some (st, CmdResult.ok (acc ++ b)) := by
  have hloop : runLoop m [] (evs₁ ++ ReadEv.data b :: rest) =
      LoopOut.truncated (acc ++ b) := by
    rw [runLoop_append, h1]
    simp only [runLoop]
    rw [h2]
    rw [if_pos (by simpa [List.length_append] using h3)]
  simp [runCommand, hr, hloop]

/-- Witness for C2: a run of 1 MiB + 1 bytes of value 1 with marker byte 2
returns the whole accumulated run as a successful result. -/
theorem runCommand_size_ceiling_returns_accumulated_ok_witness :
    runCommand ⟨true⟩ true [2]
        ([] ++ ReadEv.data (List.replicate (MB + 1) 1) :: []) =
      some (⟨true⟩, CmdResult.ok ([] ++ List.replicate (MB + 1) 1)) := by
  have h2 : scanStep [2] ([] ++ List.replicate (MB + 1) 1)
      (List.replicate (MB + 1) 1).length = none := by
    simpa using scanStep_replicate_ne 1 2 (by decide) (MB + 1) (List.replicate (MB + 1) 1).length
  exact runCommand_size_ceiling_returns_accumulated_ok ⟨true⟩ [2] []
    (List.replicate (MB + 1) 1) [] [] rfl rfl h2 (by simp)

/-- C3.  `RunCommand` returns only on finding the marker or on exceeding the
1 MiB ceiling.  End-of-stream reads (`n = 0`, `err = io.EOF`) neither return
nor change state: if the loop is pending after the stream's data is exhausted,
then after any number `k` of further EOF reads the call still has not
returned. -/
theorem runCommand_never_returns_on_eof
    (st : SessionSt) (m a : List Nat) (evs : List ReadEv) (k : Nat)
    (hr : st.running = true)
    (h : runLoop m [] evs = LoopOut.pending a) :
    runCommand st true m (evs ++ List.replicate k (ReadEv.data [])) = none := by
  have ha : a.length ≤ MB := runLoop_pending_le m [] a evs (by simp) h
  have hloop : runLoop m [] (evs ++ List.replicate k (ReadEv.data [])) =
      LoopOut.pending a := by
    rw [runLoop_append, h]
    exact runLoop_eof_pending m a k ha
  simp [runCommand, hr, hloop]

/-- Witness for C3: a stream that ends immediately (five EOF reads, no data)
never causes the call to return. -/
theorem runCommand_never_returns_on_eof_witness :
    runCommand ⟨true⟩ true [1] ([] ++ List.replicate 5 (ReadEv.data [])) = none :=
  runCommand_never_returns_on_eof ⟨true⟩ [1] [] [] 5 rfl rfl

/-- C9.  The marker is the uuid generated per call (src/main.go line 130), so
distinct generator outputs give distinct markers.  Output consisting of one
call's marker `m₁` as literal text does not terminate another call's read that
waits for a different equal-length marker `m₂`: the loop stays pending. -/
theorem marker_distinct_no_cross_termination
    (m₁ m₂ : List Nat) (hne : m₁ ≠ m₂) (hlen : m₁.length = m₂.length)
    (hsz : m₁.length ≤ MB) :
    (m₁ <:+: m₁) ∧ runLoop m₂ [] [ReadEv.data m₁] = LoopOut.pending m₁ := by
  refine ⟨List.infix_refl m₁, ?_⟩
  have hm₁ : m₁ ≠ [] := by
    intro h0
    apply hne
    rw [h0]
    rw [h0] at hlen
    exact (List.eq_nil_of_length_eq_zero hlen.symm).symm
  simp only [runLoop, List.nil_append]
  have hscan : scanStep m₂ m₁ m₁.length = none := by
    unfold scanStep findFrom
    rw [if_pos (List.length_pos.mpr hm₁), if_pos (le_of_eq hlen.symm)]
    rw [Nat.sub_self]
    have hcount : m₁.length + 1 - m₂.length - 0 = 1 := by omega
    rw [hcount]
    show findFirst m₂ m₁ [0] = none
    simp only [findFirst, List.drop_zero]
    rw [if_neg]
    rw [← hlen, List.take_length]
    simpa using hne
  rw [hscan]
  rw [if_neg (Nat.not_lt.mpr hsz)]

/-- Witness for C9 at markers `[1,2]` and `[1,3]`. -/
theorem marker_distinct_no_cross_termination_witness :
    (([1, 2] : List Nat) <:+: [1, 2]) ∧
    runLoop [1, 3] [] [ReadEv.data [1, 2]] = LoopOut.pending [1, 2] :=
  marker_distinct_no_cross_termination [1, 2] [1, 3] (by decide) rfl (by decide)

/-! ### Claim theorems: session error handling -/

/-- C4 counterexample.  The claim says that after a WriteError or ReadError the
session's running flag is false and a repeat call fails with NotRunningError.
In the code `RunCommand` never assigns `s.Running`: at the concrete session
`{Running: true}`, a failing write returns WriteError and a failing read
returns ReadError, yet the session state afterwards still has `running = true`,
and the repeated call returns WriteError again, not NotRunningError. -/
theorem runCommand_io_error_keeps_session_running_counterexample :
    runCommand ⟨true⟩ false [1] [] = some (⟨true⟩, CmdResult.err CmdErr.writeError) ∧
    runCommand ⟨true⟩ true [1] [ReadEv.err] =
      some (⟨true⟩, CmdResult.err CmdErr.readError) ∧
    (⟨true⟩ : SessionSt).running ≠ false ∧
    runCommand ⟨true⟩ false [1] [] ≠ some (⟨true⟩, CmdResult.err CmdErr.notRunning) :=
  ⟨rfl, rfl, by decide, by decide⟩

/-- C4 amended.  After `RunCommand` fails with any error the session state is
unchanged (the code never mutates `s.Running`), so after a WriteError or
ReadError on a running session a subsequent call does not fail with
NotRunningError — it re-attempts the write and read instead. -/
theorem runCommand_error_leaves_flag_unchanged
    (st st' : SessionSt) (w : Bool) (m : List Nat) (evs : List ReadEv) (e : CmdErr)
    (h : runCommand st w m evs = some (st', CmdResult.err e)) :
    st' = st ∧
    (st.running = true →
      ∀ w' m' evs' st'',
        runCommand st' w' m' evs' ≠ some (st'', CmdResult.err CmdErr.notRunning)) := by
  have hst : st' = st := by
    by_cases hr : st.running = false
    · simp [runCommand, hr] at h
      exact h.1.symm
    · by_cases hw : w = false
      · simp [runCommand, hr, hw] at h
        exact h.1.symm
      · simp only [runCommand, if_neg hr, if_neg hw] at h
        cases hl : runLoop m [] evs with
        | found r => rw [hl] at h; simp at h
        | truncated r => rw [hl] at h; simp at h
        | readError => rw [hl] at h; simp at h; exact h.1.symm
        | pending a => rw [hl] at h; simp at h
  subst hst
  refine ⟨rfl, fun hr w' m' evs' st'' hcontra => ?_⟩
  have hr' : ¬(st'.running = false) := by rw [hr]; simp
  simp only [runCommand, if_neg hr'] at hcontra
  by_cases hw : w' = false
  · rw [if_pos hw] at hcontra
    simp at hcontra
  · rw [if_neg hw] at hcontra
    cases hl : runLoop m' [] evs' with
    | found r => rw [hl] at hcontra; simp at hcontra
    | truncated r => rw [hl] at hcontra; simp at hcontra
    | readError => rw [hl] at hcontra; simp at hcontra
    | pending a => rw [hl] at hcontra; simp at hcontra

/-- Witness for the amended C4 at a running session whose write fails. -/
theorem runCommand_error_leaves_flag_unchanged_witness :
    (⟨true⟩ : SessionSt) = ⟨true⟩ ∧
    ((⟨true⟩ : SessionSt).running = true →
      ∀ w' m' evs' st'',
        runCommand ⟨true⟩ w' m' evs' ≠ some (st'', CmdResult.err CmdErr.notRunning)) :=
  runCommand_error_leaves_flag_unchanged ⟨true⟩ ⟨true⟩ false [1] []
    CmdErr.writeError rfl

/-- C6.  `RunCommand` fails with NotRunningError exactly when the running flag
is false at entry, and in that case the result is the same for every possible
write outcome and every possible read stream — i.e. the failure is decided
before anything is written to stdin or read from stdout. -/
theorem runCommand_notRunning_iff_flag_false (st : SessionSt) :
    (st.running = false →
      ∀ w m evs, runCommand st w m evs = some (st, CmdResult.err CmdErr.notRunning)) ∧
    (st.running = true →
      ∀ w m evs st',
        runCommand st w m evs ≠ some (st', CmdResult.err CmdErr.notRunning)) := by
  constructor
  · intro hr w m evs
    simp [runCommand, hr]
  · intro hr w m evs st' hcontra
    have hr' : ¬(st.running = false) := by rw [hr]; simp
    simp only [runCommand, if_neg hr'] at hcontra
    by_cases hw : w = false
    · rw [if_pos hw] at hcontra
      simp at hcontra
    · rw [if_neg hw] at hcontra
      cases hl : runLoop m [] evs with
      | found r => rw [hl] at hcontra; simp at hcontra
      | truncated r => rw [hl] at hcontra; simp at hcontra
      | readError => rw [hl] at hcontra; simp at hcontra
      | pending a => rw [hl] at hcontra; simp at hcontra

/-- Witness for C6: a terminated session fails with NotRunningError even
though the stream has data available. -/
theorem runCommand_notRunning_iff_flag_false_witness :
    runCommand ⟨false⟩ true [1] [ReadEv.data [5]] =
      some (⟨false⟩, CmdResult.err CmdErr.notRunning) :=
  (runCommand_notRunning_iff_flag_false ⟨false⟩).1 rfl true [1] [ReadEv.data [5]]

/-! ### Claim theorems: the registry -/

/-- C7.  `EndSession` fails with the not-found error exactly when the id is
absent, leaving the registry unchanged in that case; otherwise it succeeds,
sets the session object's running flag to false, removes the id (so a
subsequent lookup reports not found) and touches no other entry. -/
theorem endSession_spec (w : World) (id : String) :
    ((endSession w id).2 = EndResult.notFound ↔ w.sessions id = none) ∧
    (w.sessions id = none → (endSession w id).1 = w) ∧
    (∀ r, w.sessions id = some r →
      (endSession w id).2 = EndResult.ok ∧
      getSession (endSession w id).1 id = none ∧
      ((endSession w id).1).running r = false ∧
      ∀ k, k ≠ id → ((endSession w id).1).sessions k = w.sessions k) := by
  cases hid : w.sessions id with
  | none =>
    refine ⟨by simp [endSession, hid], fun _ => by simp [endSession, hid], ?_⟩
    intro r hr
    simp at hr
  | some r0 =>
    refine ⟨by simp [endSession, hid], fun h => ?_, ?_⟩
    · simp at h
    · intro r hr
      injection hr with hrr
      subst hrr
      refine ⟨by simp [endSession, hid], by simp [endSession, hid, getSession],
        by simp [endSession, hid], ?_⟩
      intro k hk
      simp [endSession, hid, hk]

/-- Witness for C7: destroying the only session of a one-session registry
succeeds, makes its id unresolvable, and marks the object not running. -/
theorem endSession_spec_witness :
    (endSession (createSession World.empty "a") "a").2 = EndResult.ok ∧
    getSession (endSession (createSession World.empty "a") "a").1 "a" = none ∧
    ((endSession (createSession World.empty "a") "a").1).running 0 = false := by
  have h : (createSession World.empty "a").sessions "a" = some 0 := by
    simp [createSession, World.empty]
  obtain ⟨h1, h2, h3, -⟩ := (endSession_spec (createSession World.empty "a") "a").2.2 0 h
  exact ⟨h1, h2, h3⟩

/-- Registry invariant: every mapped session object is running, references
point below the allocation bound, and distinct ids never share an object. -/
def RegInv (w : World) : Prop :=
  (∀ id r, w.sessions id = some r → w.running r = true ∧ r < w.alloc) ∧
  (∀ id₁ id₂ r, w.sessions id₁ = some r → w.sessions id₂ = some r → id₁ = id₂)

/-- The registry invariant holds in every world reachable through the public
operations. -/
theorem reached_regInv (w : World) (h : Reached w) : RegInv w := by
  induction h with
  | start =>
    exact ⟨fun id r hr => by simp [World.empty] at hr,
      fun i₁ i₂ r h1 h2 => by simp [World.empty] at h1⟩
  | create id hw hfresh ih =>
    obtain ⟨ih1, ih2⟩ := ih
    constructor
    · intro i r hr
      by_cases hi : i = id
      · subst hi
        simp only [createSession, if_pos rfl] at hr
        injection hr with hrr
        subst hrr
        simp [createSession]
      · simp only [createSession, if_neg hi] at hr
        obtain ⟨hrun, hlt⟩ := ih1 i r hr
        refine ⟨?_, by simp [createSession]; omega⟩
        simp only [createSession]
        rw [if_neg (Nat.ne_of_lt hlt)]
        exact hrun
    · intro i₁ i₂ r h1 h2
      by_cases hi₁ : i₁ = id <;> by_cases hi₂ : i₂ = id
      · rw [hi₁, hi₂]
      · subst hi₁
        simp only [createSession, if_pos rfl] at h1
        simp only [createSession, if_neg hi₂] at h2
        injection h1 with h1'
        obtain ⟨-, hlt⟩ := ih1 i₂ r h2
        omega
      · subst hi₂
        simp only [createSession, if_pos rfl] at h2
        simp only [createSession, if_neg hi₁] at h1
        injection h2 with h2'
        obtain ⟨-, hlt⟩ := ih1 i₁ r h1
        omega
      · simp only [createSession, if_neg hi₁] at h1
        simp only [createSession, if_neg hi₂] at h2
        exact ih2 i₁ i₂ r h1 h2
  | @destroy w' id hw ih =>
    obtain ⟨ih1, ih2⟩ := ih
    cases hid : w'.sessions id with
    | none =>
      have hE : (endSession w' id).1 = w' := by simp [endSession, hid]
      rw [hE]
      exact ⟨ih1, ih2⟩
    | some r0 =>
      constructor
      · intro i r hr
        simp only [endSession, hid] at hr
        by_cases hi : i = id
        · rw [if_pos hi] at hr
          cases hr
        · rw [if_neg hi] at hr
          obtain ⟨hrun, hlt⟩ := ih1 i r hr
          have hrr0 : r ≠ r0 := by
            intro he
            subst he
            exact hi (ih2 i id r hr hid)
          simp only [endSession, hid]
          rw [if_neg hrr0]
          exact ⟨hrun, hlt⟩
      · intro i₁ i₂ r h1 h2
        simp only [endSession, hid] at h1 h2
        by_cases hi₁ : i₁ = id
        · rw [if_pos hi₁] at h1
          cases h1
        · by_cases hi₂ : i₂ = id
          · rw [if_pos hi₂] at h2
            cases h2
          · rw [if_neg hi₁] at h1
            rw [if_neg hi₂] at h2
            exact ih2 i₁ i₂ r h1 h2

/-- C8 amended, first half.  Every session stored in the registry mapping of a
reachable world has its running flag true: the lookup of any id yields an
object that is running at that instant. -/
theorem registry_sessions_always_running (w : World) (h : Reached w)
    (id : String) (r : Nat) (hl : getSession w id = some r) :
    w.running r = true :=
  ((reached_regInv w h).1 id r hl).1

/-- Witness for the C8 invariant at a freshly created one-session registry. -/
theorem registry_sessions_always_running_witness :
    (createSession World.empty "a").running 0 = true :=
  registry_sessions_always_running (createSession World.empty "a")
    (Reached.create "a" Reached.start rfl) "a" 0
    (by simp [getSession, createSession, World.empty])

/-- C8 counterexample.  The claim says the NotRunningError branch of
`RunCommand` is unreachable through the public create/lookup/destroy/run
interface.  But lookup hands out a reference to the shared session object, and
a destroy of the same id sets that object's running flag to false before
removing it, so running the previously looked-up session afterwards takes
exactly the NotRunningError branch: create "a", look it up (object 0), destroy
"a", then run object 0. -/
theorem lookup_then_destroy_reaches_notRunning :
    getSession (createSession World.empty "a") "a" = some 0 ∧
    runCommand ⟨((endSession (createSession World.empty "a") "a").1).running 0⟩
        true [1] [ReadEv.data [5]] =
      some (⟨false⟩, CmdResult.err CmdErr.notRunning) := by
  refine ⟨by simp [getSession, createSession, World.empty], ?_⟩
  have hrun : ((endSession (createSession World.empty "a") "a").1).running 0 = false := by
    simp [endSession, createSession, World.empty]
  rw [hrun]
  rfl

/-! ### Claim theorem: terminator stripping -/

/-- One step of the Go stripping on a nonempty byte sequence with last byte
`a`: the byte is removed exactly when it equals the tested byte `c`. -/
theorem stripIfLast_concat (c a : Nat) (L : List Nat) :
    stripIfLast c (L ++ [a]) = if a = c then L else L ++ [a] := by
  by_cases ha : a = c
  · subst ha
    simp [stripIfLast]
  · simp [stripIfLast, ha]

/-- `cleanTrailing` only removes bytes from the end: the result is a prefix of
the input (no other trimming or transformation). -/
theorem stripIfLast_prefix_self (c : Nat) (l : List Nat) : stripIfLast c l <+: l := by
  unfold stripIfLast
  split
  · exact List.dropLast_prefix l
  · exact List.prefix_refl l

/-- `cleanTrailing` only removes bytes from the end: the result is a prefix of
the input (no other trimming or transformation). -/
theorem cleanTrailing_prefix_self (l : List Nat) : cleanTrailing l <+: l :=
  (stripIfLast_prefix_self 13 (stripIfLast 10 l)).trans (stripIfLast_prefix_self 10 l)

/-- A one-byte suffix of a concatenation is determined by the last byte. -/
theorem suffix_singleton_concat {x a : Nat} {L : List Nat} :
    [x] <:+ L ++ [a] ↔ x = a := by
  constructor
  · rintro ⟨p, hp⟩
    have h := congrArg List.getLast? hp
    simpa using h
  · rintro rfl
    exact ⟨L, rfl⟩

/-- A two-byte suffix of a concatenation splits into the last byte and a
one-byte suffix of the front. -/
theorem suffix_pair_concat {x y a : Nat} {L : List Nat} :
    [x, y] <:+ L ++ [a] ↔ y = a ∧ [x] <:+ L := by
  constructor
  · rintro ⟨p, hp⟩
    have hp' : (p ++ [x]) ++ [y] = L ++ [a] := by
      rw [List.append_assoc]
      exact hp
    obtain ⟨h1, h2⟩ := List.append_inj' hp' (by simp)
    simp only [List.cons.injEq] at h2
    exact ⟨h2.1, ⟨p, h1⟩⟩
  · rintro ⟨rfl, ⟨p, hp⟩⟩
    refine ⟨p, ?_⟩
    rw [← hp]
    simp

/-- C5.  The cleanup the code applies to the bytes before the marker equals
the specification's stripping — exactly one trailing line terminator (CRLF,
LF, or CR) removed when present, the input returned unchanged otherwise — and
it performs no other transformation (the result is a prefix of the input). -/
theorem cleanTrailing_strips_exactly_one_terminator (l : List Nat) :
    cleanTrailing l = specStripTerminator l ∧ cleanTrailing l <+: l := by
  refine ⟨?_, cleanTrailing_prefix_self l⟩
  rcases l.eq_nil_or_concat' with rfl | ⟨L, a, rfl⟩
  · decide
  show stripIfLast 13 (stripIfLast 10 (L ++ [a])) = specStripTerminator (L ++ [a])
  by_cases ha10 : a = 10
  · subst ha10
    rw [stripIfLast_concat, if_pos rfl]
    rcases L.eq_nil_or_concat' with rfl | ⟨M, b, rfl⟩
    · decide
    by_cases hb13 : b = 13
    · subst hb13
      rw [stripIfLast_concat, if_pos rfl]
      have hsuf : [13, 10] <:+ (M ++ [13]) ++ [10] :=
        ⟨M, (List.append_assoc M [13] [10]).symm⟩
      simp only [specStripTerminator]
      rw [if_pos hsuf]
      have hlen : ((M ++ [13]) ++ [10]).length - 2 = M.length := by simp
      rw [hlen, List.append_assoc]
      exact (List.take_left M ([13] ++ [10])).symm
    · rw [stripIfLast_concat, if_neg hb13]
      have hnot : ¬([13, 10] <:+ (M ++ [b]) ++ [10]) := by
        rw [suffix_pair_concat]
        rintro ⟨-, hsuf⟩
        rw [suffix_singleton_concat] at hsuf
        exact hb13 hsuf.symm
      have hyes : [10] <:+ (M ++ [b]) ++ [10] := ⟨M ++ [b], rfl⟩
      simp only [specStripTerminator]
      rw [if_neg hnot, if_pos hyes]
      have hlen : ((M ++ [b]) ++ [10]).length - 1 = (M ++ [b]).length := by simp
      rw [hlen]
      exact (List.take_left (M ++ [b]) [10]).symm
  · rw [stripIfLast_concat, if_neg ha10]
    by_cases ha13 : a = 13
    · subst ha13
      rw [stripIfLast_concat, if_pos rfl]
      have hnot1 : ¬([13, 10] <:+ L ++ [13]) := by
        rw [suffix_pair_concat]
        rintro ⟨h, -⟩
        exact absurd h (by decide)
      have hnot2 : ¬([10] <:+ L ++ [13]) := by
        rw [suffix_singleton_concat]
        decide
      have hyes : [13] <:+ L ++ [13] := ⟨L, rfl⟩
      simp only [specStripTerminator]
      rw [if_neg hnot1, if_neg hnot2, if_pos hyes]
      have hlen : (L ++ [13]).length - 1 = L.length := by simp
      rw [hlen]
      exact (List.take_left L [13]).symm
    · rw [stripIfLast_concat, if_neg ha13]
      have hnot1 : ¬([13, 10] <:+ L ++ [a]) := by
        rw [suffix_pair_concat]
        rintro ⟨h, -⟩
        exact ha10 h.symm
      have hnot2 : ¬([10] <:+ L ++ [a]) := by
        rw [suffix_singleton_concat]
        exact fun h => ha10 h.symm
      have hnot3 : ¬([13] <:+ L ++ [a]) := by
        rw [suffix_singleton_concat]
        exact fun h => ha13 h.symm
      simp only [specStripTerminator]
      rw [if_neg hnot1, if_neg hnot2, if_neg hnot3]

/-! ### Claim theorem: command serialization under the session lock -/

/-- Events a `RunCommand` call performs against its session, in program order
(src/main.go lines 119-188): `s.mu.Lock()` at entry, the stdin write, the
reads of the loop, and the deferred `s.mu.Unlock()` on return. -/
inductive Ev where
  | acquire
  | release
  | write
  | read
deriving DecidableEq

/-- Event sequence of one `RunCommand` call: the lock is acquired first and
released last (the unlock is deferred), with the whole body in between. -/
def cmdEvents (body : List Ev) : List Ev := Ev.acquire :: body ++ [Ev.release]

/-- Body of a call that writes the command and performs `n` reads; every exit
path of the Go function has this shape for some `n`. -/
def cmdBody (n : Nat) : List Ev := Ev.write :: List.replicate n Ev.read

/-- A call body contains no lock operations. -/
def LockFree (l : List Ev) : Prop := ∀ e ∈ l, e ≠ Ev.acquire ∧ e ≠ Ev.release

/-- An event tagged with the issuing thread. -/
abbrev TEv := Bool × Ev

/-- Tag every event of a call with its thread. -/
def tag (t : Bool) (l : List Ev) : List TEv := l.map (fun e => (t, e))

theorem tag_nil (t : Bool) : tag t [] = [] := rfl

theorem tag_cons (t : Bool) (e : Ev) (l : List Ev) :
    tag t (e :: l) = (t, e) :: tag t l := rfl

/-- Interleavings of two threads' event sequences preserving each thread's
program order. -/
inductive Merge : List TEv → List TEv → List TEv → Prop where
  | nil : Merge [] [] []
  | left {x : TEv} {xs ys zs : List TEv} : Merge xs ys zs → Merge (x :: xs) ys (x :: zs)
  | right {y : TEv} {xs ys zs : List TEv} : Merge xs ys zs → Merge xs (y :: ys) (y :: zs)

/-- Mutex semantics of `s.mu`: the lock state is its holder (or free).  An
acquire is schedulable only when the lock is free, a release only by the
holder; writes and reads are always schedulable. -/
def evStep (st : Option Bool) (te : TEv) : Option (Option Bool) :=
  match st, te with
  | none, (t, Ev.acquire) => some (some t)
  | some _, (_, Ev.acquire) => none
  | some u, (t, Ev.release) => if u = t then some none else none
  | none, (_, Ev.release) => none
  | st, (_, Ev.write) => some st
  | st, (_, Ev.read) => some st

/-- A schedule is valid from lock state `st` when every event in turn is
schedulable. -/
def schedOkFrom (st : Option Bool) : List TEv → Bool
  | [] => true
  | te :: rest =>
      match evStep st te with
      | none => false
      | some st' => schedOkFrom st' rest

theorem merge_nil_left : ∀ {ys zs : List TEv}, Merge [] ys zs → zs = ys := by
  intro ys
  induction ys with
  | nil =>
    intro zs h
    cases h
    rfl
  | cons y ys ih =>
    intro zs h
    cases h with
    | right h' => rw [ih h']

theorem merge_comm {xs ys zs : List TEv} (h : Merge xs ys zs) : Merge ys xs zs := by
  induction h with
  | nil => exact Merge.nil
  | left h ih => exact Merge.right ih
  | right h ih => exact Merge.left ih

/-- While thread `t` holds the lock and still has `body ++ [release]` to run
(`body` lock-free), the other thread's next event is an acquire and is
blocked, so any valid schedule runs all of `t`'s remaining events first and
hands over a free lock. -/
theorem merge_locked_runs_to_completion (t u : Bool) :
    ∀ body : List Ev, LockFree body → ∀ ys' zs : List TEv,
      Merge (tag t (body ++ [Ev.release])) ((u, Ev.acquire) :: ys') zs →
      schedOkFrom (some t) zs = true →
      zs = tag t (body ++ [Ev.release]) ++ (u, Ev.acquire) :: ys' ∧
        schedOkFrom none ((u, Ev.acquire) :: ys') = true := by
  intro body
  induction body with
  | nil =>
    intro hb ys' zs hm hs
    simp only [List.nil_append, tag_cons, tag_nil] at hm ⊢
    cases hm with
    | left hm' =>
      have hz := merge_nil_left hm'
      subst hz
      simp only [schedOkFrom, evStep, if_pos rfl] at hs
      exact ⟨rfl, hs⟩
    | right hm' =>
      simp [schedOkFrom, evStep] at hs
  | cons e body' ih =>
    intro hb ys' zs hm hs
    have he : e ≠ Ev.acquire ∧ e ≠ Ev.release := hb e (List.mem_cons_self e body')
    simp only [List.cons_append, tag_cons] at hm ⊢
    cases hm with
    | left hm' =>
      have hstep : evStep (some t) (t, e) = some (some t) := by
        cases e with
        | acquire => exact absurd rfl he.1
        | release => exact absurd rfl he.2
        | write => rfl
        | read => rfl
      simp only [schedOkFrom, hstep] at hs
      have hb' : LockFree body' := fun e' he' => hb e' (List.mem_cons_of_mem _ he')
      obtain ⟨hzs, hys⟩ := ih hb' ys' _ hm' hs
      rw [hzs]
      exact ⟨rfl, hys⟩
    | right hm' =>
      simp [schedOkFrom, evStep] at hs

/-- C10.  A `RunCommand` call holds the session's lock for its whole duration:
its event sequence is `acquire`, then the lock-free body (the write and the
blocking reads), then the deferred `release`.  Under mutex semantics, every
valid interleaving of two such calls on the same session is one call run to
completion followed by the other — a concurrent second command blocks until
the first completes, and commands are never interleaved. -/
theorem commands_serialized_under_lock (b₁ b₂ : List Ev)
    (h₁ : LockFree b₁) (h₂ : LockFree b₂) (z : List TEv)
    (hm : Merge (tag true (cmdEvents b₁)) (tag false (cmdEvents b₂)) z)
    (hs : schedOkFrom none z = true) :
    z = tag true (cmdEvents b₁) ++ tag false (cmdEvents b₂) ∨
    z = tag false (cmdEvents b₂) ++ tag true (cmdEvents b₁) := by
  simp only [cmdEvents, tag_cons] at hm ⊢
  cases hm with
  | left hm' =>
    have hstep : evStep none (true, Ev.acquire) = some (some true) := rfl
    simp only [schedOkFrom, hstep] at hs
    obtain ⟨hz, -⟩ := merge_locked_runs_to_completion true false b₁ h₁ _ _ hm' hs
    left
    rw [hz]
    rfl
  | right hm' =>
    have hstep : evStep none (false, Ev.acquire) = some (some false) := rfl
    simp only [schedOkFrom, hstep] at hs
    obtain ⟨hz, -⟩ :=
      merge_locked_runs_to_completion false true b₂ h₂ _ _ (merge_comm hm') hs
    right
    rw [hz]
    rfl

/-- Witness for C10: a concrete valid schedule of a one-read command and a
zero-read command is one of the two fully serialized orders. -/
theorem commands_serialized_under_lock_witness :
    ([(true, Ev.acquire), (true, Ev.write), (true, Ev.read), (true, Ev.release),
      (false, Ev.acquire), (false, Ev.write), (false, Ev.release)] : List TEv) =
        tag true (cmdEvents (cmdBody 1)) ++ tag false (cmdEvents (cmdBody 0)) ∨
    ([(true, Ev.acquire), (true, Ev.write), (true, Ev.read), (true, Ev.release),
      (false, Ev.acquire), (false, Ev.write), (false, Ev.release)] : List TEv) =
        tag false (cmdEvents (cmdBody 0)) ++ tag true (cmdEvents (cmdBody 1)) :=
  commands_serialized_under_lock (cmdBody 1) (cmdBody 0)
    (by unfold LockFree; decide) (by unfold LockFree; decide) _
    (Merge.left (Merge.left (Merge.left (Merge.left
      (Merge.right (Merge.right (Merge.right Merge.nil)))))))
    (by decide)

end RemoteExec
